import Mathlib

/-
  Verification of the session-and-response cache layer of the
  Finsocial123/files_handling repository.

  Shallow embedding conventions:
  * Python dicts are association lists (insertion order preserved; updating
    an existing key keeps its position, a new key is appended at the end,
    matching CPython dict semantics used by the source).
  * Wall-clock time is a logical Nat counter stored in the state; every
    call to datetime.now() in the source reads the counter and increments
    it, so successive readings are strictly increasing.  The timedelta
    comparison  now - ts > timeout  is embedded as  timeout + ts < now,
    which is the same inequality over the integers.
  * Paths on which the Python code raises an uncaught exception are
    embedded as Option results (none = the call raised).
  * pickle.dumps / pickle.loads round-trip is the identity, so the durable
    payload store simply holds the payload value.
-/

namespace FH


/-- Association-list lookup, first matching key wins (dict access). -/
def alookup {β : Type} : List (String × β) → String → Option β
  | [], _ => none
  | e :: t, k => if e.1 = k then some e.2 else alookup t k

/-- Association-list insert-or-update: an existing key is updated in place
(keeping its position), a new key is appended at the end (dict assignment). -/
def aupsert {β : Type} : List (String × β) → String → β → List (String × β)
  | [], k, v => [(k, v)]
  | e :: t, k, v => if e.1 = k then (k, v) :: t else e :: aupsert t k v

/-- Association-list removal of a key (dict del; a no-op when absent). -/
def aerase {β : Type} : List (String × β) → String → List (String × β)
  | [], _ => []
  | e :: t, k => if e.1 = k then aerase t k else e :: aerase t k

/-- The minimum of a list of naturals (value of the Python min call). -/
def minVal : List Nat → Nat
  | [] => 0
  | [x] => x
  | x :: y :: t => min x (minVal (y :: t))

/-- Index of the first minimal element of a list of naturals; embeds the
Python  min(d, key=...)  call, which returns the first key attaining the
minimum in iteration order. -/
def idxOfMin : List Nat → Nat
  | [] => 0
  | [_] => 0
  | x :: y :: t => if x ≤ minVal (y :: t) then 0 else idxOfMin (y :: t) + 1

/-- Metadata about one retrieved source node, as read from
node.metadata.get in DocumentProcessor.query_document. -/
structure NodeMeta where
  is_code : Bool
  language : Option String
deriving DecidableEq

/-- The QueryResponse dataclass of src/api/document_processor.py; the
cached dict holds exactly these fields, so the cache value is the record
itself. -/
structure QueryResponse where
  response : String
  source_nodes : List NodeMeta
  is_code : Bool
  language : String
  response_time : Nat
deriving DecidableEq

/-- Result of the externally delegated query engine call: the text of the
response object and the source nodes it carries. -/
structure EngineResp where
  text : String
  nodes : List NodeMeta
deriving DecidableEq

/-- The state of a DocumentProcessor relevant to the cache layer: the
opaque vector index (none = no document processed), the per-session
response cache dict, and its bound cache size (code field names:
index, response cache dict, cache size). -/
structure DocumentProcessor where
  index : Option Nat
  responseCache : List (String × QueryResponse)
  cacheSizeMax : Nat
deriving DecidableEq

/-- DocumentProcessor.__init__ : no index yet, empty response cache,
cache size 100. -/
def initDocumentProcessor : DocumentProcessor :=
  { index := none, responseCache := [], cacheSizeMax := 100 }

/-- Python str.strip at the character-list level: drop leading and
trailing whitespace. -/
def stripChars (l : List Char) : List Char :=
  ((l.dropWhile Char.isWhitespace).reverse.dropWhile Char.isWhitespace).reverse

/-- str.strip() on a string. -/
def pyStrip (x : String) : String := String.mk (stripChars x.data)

/-- query.strip().lower() as used for the response-cache key (lowering per
character; the queries of interest are ASCII). -/
def normalizeQuery (q : String) : String :=
  String.mk ((stripChars q.data).map Char.toLower)

/-- DocumentProcessor.query_document.  The expensive query engine is an
explicit function argument; rt is the measured elapsed time observed by
the timing calls.  none embeds the raising paths: no index, empty engine
response, and the StopIteration from popping an empty cache dict. -/
def queryDocument (dp : DocumentProcessor) (engine : String → EngineResp)
    (rt : Nat) (q : String) : Option (QueryResponse × DocumentProcessor) :=
  if dp.index.isNone then none
  else
    let key := normalizeQuery q
    match alookup dp.responseCache key with
    | some c => some (c, dp)
    | none =>
      let er := engine q
      if pyStrip er.text = "" then none
      else
        let isC := er.nodes.any (fun n => n.is_code)
        let lang :=
          if isC then (er.nodes.headD { is_code := false, language := none }).language.getD "python"
          else "python"
        let r : QueryResponse :=
          { response := er.text, source_nodes := er.nodes, is_code := isC,
            language := lang, response_time := rt }
        if dp.cacheSizeMax ≤ dp.responseCache.length then
          match dp.responseCache with
          | [] => none
          | _ :: t => some (r, { dp with responseCache := t ++ [(key, r)] })
        else
          some (r, { dp with responseCache := dp.responseCache ++ [(key, r)] })

/-- Sidecar metadata record written per session id
(the *_meta.json file contents). -/
structure Meta where
  session_id : String
  created_at : Nat
  last_accessed : Nat
  ip_address : Option String
deriving DecidableEq

/-- The state of a SessionStore: quota map, in-memory session cache (id to
payload and last-access tick), its bound, the two on-disk maps (payload
files and metadata files), and the logical clock. -/
structure SessionStore where
  maxSessionsPerIp : Nat
  sessionTimeout : Nat
  ipSessions : List (String × List String)
  sessionCache : List (String × DocumentProcessor × Nat)
  maxCacheSize : Nat
  sessionFiles : List (String × DocumentProcessor)
  metaFiles : List (String × Meta)
  clock : Nat
deriving DecidableEq

/-- SessionStore.__init__ (directory handling elided; the cache bound is
the hard-coded 50 of the source). -/
def initStore (maxPerIp timeout : Nat) : SessionStore :=
  { maxSessionsPerIp := maxPerIp, sessionTimeout := timeout,
    ipSessions := [], sessionCache := [], maxCacheSize := 50,
    sessionFiles := [], metaFiles := [], clock := 0 }

/-- now - ts > timeout, as a decidable test over the logical clock. -/
def isExpired (timeout ts now : Nat) : Bool := decide (timeout + ts < now)

/-- SessionStore.delete_session : removes the id from the memory cache and
both disk maps; always reports success (the source returns True on this
path; False is only for I/O exceptions, which the embedding has none of).
It does NOT touch ip_sessions. -/
def deleteSession (s : SessionStore) (id : String) : Bool × SessionStore :=
  (true,
   { s with
       sessionCache := aerase s.sessionCache id,
       sessionFiles := aerase s.sessionFiles id,
       metaFiles := aerase s.metaFiles id })

/-- The IP-quota block of SessionStore.save_session (lines 87-97).  A
falsy ip (None or empty) skips the block.  When the list is at the limit
the oldest entry is cascade-deleted and popped before the append.  none
embeds the IndexError raised on reading element 0 of an empty list (only
reachable with max_sessions_per_ip = 0). -/
def quotaRegister (s : SessionStore) (id : String) (ip : Option String) :
    Option SessionStore :=
  match ip with
  | none => some s
  | some c =>
    if c = "" then some s
    else
      let l := (alookup s.ipSessions c).getD []
      if s.maxSessionsPerIp ≤ l.length then
        match l with
        | [] => none
        | oldest :: rest =>
          let s1 := (deleteSession s oldest).2
          some { s1 with ipSessions := aupsert s1.ipSessions c (rest ++ [id]) }
      else
        some { s with ipSessions := aupsert s.ipSessions c (l ++ [id]) }

/-- The memory-cache block of SessionStore.save_session (lines 99-105):
insert with a fresh access tick, then, if the cache is over its bound,
remove the single entry with the minimal access tick (first one on ties,
as Python min does). -/
def cachePut (s : SessionStore) (id : String) (p : DocumentProcessor) :
    SessionStore :=
  let c1 := aupsert s.sessionCache id (p, s.clock)
  let c2 :=
    if s.maxCacheSize < c1.length then
      c1.eraseIdx (idxOfMin (c1.map (fun e => e.2.2)))
    else c1
  { s with sessionCache := c2, clock := s.clock + 1 }

/-- The disk block of SessionStore.save_session (lines 107-118): write the
pickled payload and the metadata record; created_at and last_accessed come
from two separate now() calls. -/
def diskWrite (s2 : SessionStore) (id : String) (p : DocumentProcessor)
    (ip : Option String) : SessionStore :=
  { s2 with
      sessionFiles := aupsert s2.sessionFiles id p,
      metaFiles := aupsert s2.metaFiles id
        { session_id := id, created_at := s2.clock,
          last_accessed := s2.clock + 1, ip_address := ip },
      clock := s2.clock + 2 }

/-- SessionStore.save_session : quota block, then memory cache block, then
disk block. -/
def saveSession (s : SessionStore) (id : String) (p : DocumentProcessor)
    (ip : Option String) : Option SessionStore :=
  (quotaRegister s id ip).map (fun s1 => diskWrite (cachePut s1 id p) id p ip)

/-- SessionStore.load_session.  Memory-cache hit refreshes only the cache
tick and returns.  On a miss the disk payload is read; a payload without
an index is rejected (None, no promotion, no metadata touch); otherwise
the payload is promoted into the cache WITHOUT any capacity eviction, and
the metadata last_accessed is refreshed when the metadata file exists. -/
def loadSession (s : SessionStore) (id : String) :
    Option DocumentProcessor × SessionStore :=
  match alookup s.sessionCache id with
  | some pt =>
    (some pt.1,
     { s with sessionCache := aupsert s.sessionCache id (pt.1, s.clock),
              clock := s.clock + 1 })
  | none =>
    match alookup s.sessionFiles id with
    | none => (none, s)
    | some p =>
      if p.index.isNone then (none, s)
      else
        let s1 : SessionStore :=
          { s with sessionCache := aupsert s.sessionCache id (p, s.clock),
                   clock := s.clock + 1 }
        match alookup s1.metaFiles id with
        | none => (some p, s1)
        | some m =>
          (some p,
           { s1 with metaFiles := aupsert s1.metaFiles id
                       { m with last_accessed := s1.clock },
                     clock := s1.clock + 1 })

/-- One step of the disk phase of the Reaper scan: re-read the metadata
file named k (a file deleted by an earlier step of the same scan reads as
absent and is skipped, as the caught open error), and cascade-delete the
session it names when its last_accessed has expired. -/
def reapStep (now : Nat) (st : SessionStore) (k : String) : SessionStore :=
  match alookup st.metaFiles k with
  | none => st
  | some m =>
    if isExpired st.sessionTimeout m.last_accessed now then
      (deleteSession st m.session_id).2
    else st

/-- One iteration of the SessionStore._cleanup_old_sessions loop body:
read now() once, drop expired entries from the memory cache, then walk a
snapshot of the metadata file names applying reapStep to each. -/
def cleanupOnce (s : SessionStore) : SessionStore :=
  let now := s.clock
  let s0 : SessionStore := { s with clock := s.clock + 1 }
  let s1 : SessionStore :=
    { s0 with sessionCache :=
        s0.sessionCache.filter (fun e => !(isExpired s.sessionTimeout e.2.2 now)) }
  (s1.metaFiles.map (fun e => e.1)).foldl (reapStep now) s1

/-- SessionStore.get_sessions_for_ip. -/
def getSessionsForIp (s : SessionStore) (ip : String) : List String :=
  (alookup s.ipSessions ip).getD []


/-- The keys of an association list, in order. -/
def keysOf {β : Type} (l : List (String × β)) : List String :=
  l.map (fun e => e.1)


/-- All three session tiers have no record for the id. -/
def absentEverywhere (s : SessionStore) (id : String) : Prop :=
  alookup s.sessionCache id = none ∧ alookup s.sessionFiles id = none ∧
  alookup s.metaFiles id = none

instance (s : SessionStore) (id : String) : Decidable (absentEverywhere s id) := by
  unfold absentEverywhere
  infer_instance

/-- Every metadata record on disk names the session id it is filed under;
this holds for every state the store itself builds. -/
def MetaWF (s : SessionStore) : Prop :=
  ∀ e ∈ s.metaFiles, e.2.session_id = e.1

instance (s : SessionStore) : Decidable (MetaWF s) := by
  unfold MetaWF
  exact List.decidableBAll _ _

/-- The successor of one quota list under one registration, per the source:
at the limit the oldest (head) entry is dropped, then the id is appended. -/
def quotaNext (max : Nat) (l : List String) (id : String) : List String :=
  (if max ≤ l.length then l.tail else l) ++ [id]

/-- A sequence of save_session calls for one client, stopping at the first
raised error. -/
def saveAll (s : SessionStore) (c : String)
    (ps : List (String × DocumentProcessor)) : Option SessionStore :=
  ps.foldl (fun acc e => acc.bind (fun st => saveSession st e.1 e.2 (some c))) (some s)

/-- The last m elements of a list. -/
def lastN (m : Nat) (l : List String) : List String := l.drop (l.length - m)


/-- The memory-cache phase of one Reaper scan: fresh clock tick, expired
cache entries dropped. -/
def phase1 (s : SessionStore) : SessionStore :=
  { s with
      clock := s.clock + 1,
      sessionCache := s.sessionCache.filter
        (fun e => !(isExpired s.sessionTimeout e.2.2 s.clock)) }


/-- A payload whose liveness check passes (has a vector index). -/
def procA : DocumentProcessor := { index := some 0, responseCache := [], cacheSizeMax := 100 }

/-- A second distinct live payload. -/
def procB : DocumentProcessor := { index := some 1, responseCache := [], cacheSizeMax := 100 }

/-- A third distinct live payload. -/
def procC : DocumentProcessor := { index := some 2, responseCache := [], cacheSizeMax := 100 }

/-- A cached response value. -/
def respA : QueryResponse :=
  { response := "ra", source_nodes := [], is_code := false, language := "python",
    response_time := 0 }

/-- A second cached response value. -/
def respB : QueryResponse :=
  { response := "rb", source_nodes := [], is_code := false, language := "python",
    response_time := 0 }

/-- A query engine producing a fixed non-empty answer. -/
def engC : String → EngineResp := fun _ => { text := "ans", nodes := [] }

/-- A different engine, used to show the second call never reaches it. -/
def engOther : String → EngineResp := fun _ => { text := "other", nodes := [] }

/-- The response produced by engC at response time 7. -/
def rC8 : QueryResponse :=
  { response := "ans", source_nodes := [], is_code := false, language := "python",
    response_time := 7 }

/-- The processor state after caching rC8 under the normalized key. -/
def dpC8after : DocumentProcessor :=
  { index := some 0, responseCache := [("hello world", rC8)], cacheSizeMax := 100 }

/-- An at-capacity processor: capacity 2, two cached entries. -/
def wDpC9 : DocumentProcessor :=
  { index := some 0, responseCache := [("a", respA), ("b", respB)], cacheSizeMax := 2 }

/-- The response produced by engC at response time 5. -/
def rC9 : QueryResponse :=
  { response := "ans", source_nodes := [], is_code := false, language := "python",
    response_time := 5 }

/-- wDpC9 after one more insertion: the oldest entry was dropped. -/
def dpC9after : DocumentProcessor :=
  { index := some 0, responseCache := [("b", respB), ("c", rC9)], cacheSizeMax := 2 }

/-- A fresh store whose hot cache holds at most two entries. -/
def capTwoStore : SessionStore := { initStore 5 24 with maxCacheSize := 2 }

/-- put a, put b, get a (refresh), put c on the capacity-2 store. -/
def scenarioStore : SessionStore :=
  let s1 := (saveSession capTwoStore "a" procA none).getD capTwoStore
  let s2 := (saveSession s1 "b" procB none).getD s1
  let s3 := (loadSession s2 "a").2
  (saveSession s3 "c" procC none).getD s3

/-- put a, put b, put c (evicts a), then load a, whose disk promotion
re-enters the cache with no eviction. -/
def c5RunStore : SessionStore :=
  let s1 := (saveSession capTwoStore "a" procA none).getD capTwoStore
  let s2 := (saveSession s1 "b" procB none).getD s1
  let s3 := (saveSession s2 "c" procC none).getD s2
  (loadSession s3 "a").2

/-- A store holding one session saved under a client address. -/
def cexStoreC2 : SessionStore :=
  (saveSession (initStore 5 24) "s1" procA (some "10.0.0.1")).getD (initStore 5 24)

/-- A session saved on a store with a two-hour timeout. -/
def c1exS1 : SessionStore :=
  (saveSession (initStore 5 2) "a" procA none).getD (initStore 5 2)

/-- The same store after simulated time advances beyond the timeout. -/
def c1exS2 : SessionStore := { c1exS1 with clock := 10 }

/-- The store right after a cache-hit load of the session. -/
def c1exS3 : SessionStore := (loadSession c1exS2 "a").2

/-- A store whose capacity-1 hot cache holds a durably backed entry. -/
def wStoreC6 : SessionStore :=
  { maxSessionsPerIp := 5, sessionTimeout := 24, ipSessions := [],
    sessionCache := [("a", (procA, 0))], maxCacheSize := 1,
    sessionFiles := [("a", procA)], metaFiles := [], clock := 5 }

/-- A store with one quota slot already used by session s of client c. -/
def wStoreC10 : SessionStore := { initStore 5 24 with ipSessions := [("c", ["s"])] }

/-- An expired session record present in all three tiers. -/
def wStoreC1a : SessionStore :=
  { initStore 5 2 with
      sessionCache := [("a", (procA, 0))], sessionFiles := [("a", procA)],
      metaFiles := [("a", { session_id := "a", created_at := 0, last_accessed := 0,
                            ip_address := none })],
      clock := 10 }

/-- A durably stored session absent from the hot cache. -/
def wStoreC1b : SessionStore :=
  { initStore 5 2 with
      sessionFiles := [("a", procA)],
      metaFiles := [("a", { session_id := "a", created_at := 0, last_accessed := 0,
                            ip_address := none })],
      clock := 3 }

/-- Three distinct sessions saved for one client on a store with quota 2. -/
def psC4 : List (String × DocumentProcessor) := [("a", procA), ("b", procB), ("d", procC)]

@[simp] theorem keysOf_nil {β : Type} : keysOf ([] : List (String × β)) = [] := rfl

@[simp] theorem keysOf_cons {β : Type} (e : String × β) (t : List (String × β)) :
    keysOf (e :: t) = e.1 :: keysOf t := rfl

theorem alookup_aupsert_self {β : Type} (l : List (String × β)) (k : String) (v : β) :
    alookup (aupsert l k v) k = some v := by
  induction l with
  | nil => simp [aupsert, alookup]
  | cons e t ih =>
    by_cases h : e.1 = k
    · simp [aupsert, h, alookup]
    · simp [aupsert, h, alookup, ih]

theorem alookup_aupsert_ne {β : Type} (l : List (String × β)) (k k2 : String) (v : β)
    (h : k2 ≠ k) : alookup (aupsert l k v) k2 = alookup l k2 := by
  induction l with
  | nil => simp [aupsert, alookup, Ne.symm h]
  | cons e t ih =>
    by_cases he : e.1 = k
    · simp only [aupsert, if_pos he, alookup, he, if_neg (Ne.symm h)]
    · simp only [aupsert, if_neg he, alookup]
      by_cases he2 : e.1 = k2
      · rw [if_pos he2, if_pos he2]
      · rw [if_neg he2, if_neg he2, ih]

theorem alookup_aerase_self {β : Type} (l : List (String × β)) (k : String) :
    alookup (aerase l k) k = none := by
  induction l with
  | nil => simp [aerase, alookup]
  | cons e t ih =>
    by_cases h : e.1 = k
    · simp [aerase, h, ih]
    · simp [aerase, h, alookup, ih]

theorem alookup_aerase_ne {β : Type} (l : List (String × β)) (k k2 : String)
    (h : k2 ≠ k) : alookup (aerase l k) k2 = alookup l k2 := by
  induction l with
  | nil => simp [aerase]
  | cons e t ih =>
    by_cases he : e.1 = k
    · simp [aerase, he, alookup, ih, Ne.symm h]
    · by_cases he2 : e.1 = k2
      · simp [aerase, he, alookup, he2, h]
      · simp [aerase, he, alookup, he2, ih]

theorem alookup_eq_none_iff {β : Type} (l : List (String × β)) (k : String) :
    alookup l k = none ↔ ∀ e ∈ l, e.1 ≠ k := by
  induction l with
  | nil => simp [alookup]
  | cons e t ih =>
    by_cases h : e.1 = k
    · simp [alookup, h]
    · simp [alookup, h, ih]

theorem alookup_mem {β : Type} (l : List (String × β)) (k : String) (v : β)
    (h : alookup l k = some v) : (k, v) ∈ l := by
  induction l with
  | nil => simp [alookup] at h
  | cons e t ih =>
    by_cases he : e.1 = k
    · simp only [alookup, if_pos he] at h
      injection h with h2
      have : (k, v) = e := by
        obtain ⟨e1, e2⟩ := e
        simp only at he h2
        rw [he, h2]
      rw [this]
      exact List.mem_cons_self _ _
    · simp only [alookup, if_neg he] at h
      exact List.mem_cons_of_mem _ (ih h)

theorem mem_aupsert {β : Type} (l : List (String × β)) (k : String) (v : β)
    (e : String × β) (h : e ∈ aupsert l k v) : e = (k, v) ∨ e ∈ l := by
  induction l with
  | nil => simp [aupsert] at h; simp [h]
  | cons f t ih =>
    by_cases hf : f.1 = k
    · simp only [aupsert, if_pos hf] at h
      rcases List.mem_cons.mp h with h1 | h2
      · exact Or.inl h1
      · exact Or.inr (List.mem_cons_of_mem _ h2)
    · simp only [aupsert, if_neg hf] at h
      rcases List.mem_cons.mp h with h1 | h2
      · exact Or.inr (h1 ▸ List.mem_cons_self _ _)
      · rcases ih h2 with h3 | h4
        · exact Or.inl h3
        · exact Or.inr (List.mem_cons_of_mem _ h4)

theorem mem_aerase {β : Type} (l : List (String × β)) (k : String)
    (e : String × β) (h : e ∈ aerase l k) : e ∈ l := by
  induction l with
  | nil => simp [aerase] at h
  | cons f t ih =>
    by_cases hf : f.1 = k
    · simp only [aerase, if_pos hf] at h
      exact List.mem_cons_of_mem _ (ih h)
    · simp only [aerase, if_neg hf] at h
      rcases List.mem_cons.mp h with h1 | h2
      · exact h1 ▸ List.mem_cons_self _ _
      · exact List.mem_cons_of_mem _ (ih h2)

theorem length_aupsert_le {β : Type} (l : List (String × β)) (k : String) (v : β) :
    (aupsert l k v).length ≤ l.length + 1 := by
  induction l with
  | nil => simp [aupsert]
  | cons f t ih =>
    by_cases hf : f.1 = k
    · simp [aupsert, hf]
    · simp only [aupsert, if_neg hf, List.length_cons]
      omega

theorem length_aerase_le {β : Type} (l : List (String × β)) (k : String) :
    (aerase l k).length ≤ l.length := by
  induction l with
  | nil => simp [aerase]
  | cons f t ih =>
    by_cases hf : f.1 = k
    · simp only [aerase, if_pos hf, List.length_cons]
      omega
    · simp only [aerase, if_neg hf, List.length_cons]
      omega

theorem keysOf_aerase_sublist {β : Type} (l : List (String × β)) (k : String) :
    (keysOf (aerase l k)).Sublist (keysOf l) := by
  induction l with
  | nil => simp [aerase]
  | cons f t ih =>
    by_cases hf : f.1 = k
    · simp only [aerase, if_pos hf, keysOf_cons]
      exact List.Sublist.cons _ ih
    · simp only [aerase, if_neg hf, keysOf_cons]
      exact List.Sublist.cons₂ _ ih

theorem keysNodup_aerase {β : Type} (l : List (String × β)) (k : String)
    (h : (keysOf l).Nodup) : (keysOf (aerase l k)).Nodup :=
  (keysOf_aerase_sublist l k).nodup h

theorem keysOf_aupsert {β : Type} (l : List (String × β)) (k : String) (v : β) :
    keysOf (aupsert l k v) = keysOf l ∨ keysOf (aupsert l k v) = keysOf l ++ [k] := by
  induction l with
  | nil => simp [aupsert]
  | cons f t ih =>
    by_cases hf : f.1 = k
    · left
      simp [aupsert, hf]
    · rcases ih with h1 | h2
      · left
        simp only [aupsert, if_neg hf, keysOf_cons, h1]
      · right
        simp only [aupsert, if_neg hf, keysOf_cons, h2, List.cons_append]

theorem keysNodup_aupsert {β : Type} (l : List (String × β)) (k : String) (v : β)
    (h : (keysOf l).Nodup) : (keysOf (aupsert l k v)).Nodup := by
  induction l with
  | nil => simp [aupsert]
  | cons f t ih =>
    by_cases hf : f.1 = k
    · simp only [aupsert, if_pos hf, keysOf_cons] at h ⊢
      rw [List.nodup_cons] at h ⊢
      exact ⟨hf ▸ h.1, h.2⟩
    · simp only [aupsert, if_neg hf, keysOf_cons] at h ⊢
      rw [List.nodup_cons] at h ⊢
      refine ⟨?_, ih h.2⟩
      intro hmem
      rcases keysOf_aupsert t k v with h1 | h2
      · rw [h1] at hmem
        exact h.1 hmem
      · rw [h2] at hmem
        rcases List.mem_append.mp hmem with h3 | h4
        · exact h.1 h3
        · exact hf (by simpa using h4)

theorem alookup_of_mem_nodup {β : Type} (l : List (String × β)) (k : String) (v : β)
    (hnd : (keysOf l).Nodup) (hm : (k, v) ∈ l) : alookup l k = some v := by
  induction l with
  | nil => simp at hm
  | cons f t ih =>
    rw [keysOf_cons, List.nodup_cons] at hnd
    rcases List.mem_cons.mp hm with h1 | h2
    · rw [← h1]
      simp [alookup]
    · have hf : f.1 ≠ k := by
        intro he
        apply hnd.1
        rw [he]
        show k ∈ List.map (fun e => e.1) t
        exact List.mem_map_of_mem (fun e => e.1) h2
      simp [alookup, hf, ih hnd.2 h2]

theorem alookup_filter_of_key {β : Type} (l : List (String × β)) (k : String)
    (p : String × β → Bool) (h : ∀ e ∈ l, e.1 = k → p e = true) :
    alookup (l.filter p) k = alookup l k := by
  induction l with
  | nil => simp
  | cons f t ih =>
    by_cases hf : f.1 = k
    · have := h f (List.mem_cons_self _ _) hf
      simp [List.filter, this, alookup, hf]
    · by_cases hp : p f
      · simp only [List.filter, hp, alookup, if_neg hf]
        exact ih (fun e he => h e (List.mem_cons_of_mem _ he))
      · simp only [Bool.not_eq_true] at hp
        simp only [List.filter, hp, alookup, if_neg hf]
        exact ih (fun e he => h e (List.mem_cons_of_mem _ he))

theorem alookup_eraseIdx_ne {β : Type} (l : List (String × β)) (j : Nat)
    (hj : j < l.length) (k : String) (hne : (l.get ⟨j, hj⟩).1 ≠ k) :
    alookup (l.eraseIdx j) k = alookup l k := by
  induction l generalizing j with
  | nil => simp at hj
  | cons f t ih =>
    cases j with
    | zero =>
      simp only [List.get] at hne
      simp [List.eraseIdx, alookup, hne]
    | succ n =>
      simp only [List.length_cons, Nat.succ_lt_succ_iff] at hj
      simp only [List.get] at hne
      by_cases hf : f.1 = k
      · simp [List.eraseIdx, alookup, hf]
      · simp [List.eraseIdx, alookup, hf, ih n hj hne]

theorem minVal_le (l : List Nat) (i : Nat) (hi : i < l.length) :
    minVal l ≤ l.getD i 0 := by
  induction l generalizing i with
  | nil => simp at hi
  | cons x t ih =>
    cases t with
    | nil =>
      cases i with
      | zero => simp [minVal]
      | succ n => simp at hi
    | cons y u =>
      cases i with
      | zero =>
        simp only [minVal, List.getD_cons_zero]
        exact min_le_left _ _
      | succ n =>
        simp only [minVal, List.getD_cons_succ]
        have hn : n < (y :: u).length := by
          simp only [List.length_cons] at hi ⊢
          omega
        exact le_trans (min_le_right _ _) (ih n hn)

theorem idxOfMin_lt (l : List Nat) (h : 0 < l.length) : idxOfMin l < l.length := by
  induction l with
  | nil => simp at h
  | cons x t ih =>
    cases t with
    | nil => simp [idxOfMin]
    | cons y u =>
      by_cases hc : x ≤ minVal (y :: u)
      · simp [idxOfMin, hc]
      · simp only [idxOfMin, if_neg hc, List.length_cons]
        have := ih (by simp)
        simp only [List.length_cons] at this
        omega

theorem getD_idxOfMin (l : List Nat) (h : 0 < l.length) :
    l.getD (idxOfMin l) 0 = minVal l := by
  induction l with
  | nil => simp at h
  | cons x t ih =>
    cases t with
    | nil => simp [idxOfMin, minVal]
    | cons y u =>
      by_cases hc : x ≤ minVal (y :: u)
      · simp only [idxOfMin, if_pos hc, List.getD_cons_zero, minVal]
        exact (min_eq_left hc).symm
      · simp only [idxOfMin, if_neg hc, List.getD_cons_succ, minVal]
        rw [ih (by simp)]
        exact (min_eq_right (le_of_lt (Nat.lt_of_not_le hc))).symm

theorem getD_idxOfMin_le (l : List Nat) (i : Nat) (hi : i < l.length) :
    l.getD (idxOfMin l) 0 ≤ l.getD i 0 := by
  rw [getD_idxOfMin l (Nat.lt_of_le_of_lt (Nat.zero_le i) hi)]
  exact minVal_le l i hi

theorem aerase_idem {β : Type} (l : List (String × β)) (k : String) :
    aerase (aerase l k) k = aerase l k := by
  induction l with
  | nil => simp [aerase]
  | cons f t ih =>
    by_cases hf : f.1 = k
    · simp [aerase, hf, ih]
    · simp [aerase, hf, ih]

theorem alookup_aerase_of_none {β : Type} (l : List (String × β)) (k k2 : String)
    (h : alookup l k2 = none) : alookup (aerase l k) k2 = none := by
  by_cases hk : k2 = k
  · rw [hk]
    exact alookup_aerase_self l k
  · rw [alookup_aerase_ne l k k2 hk]
    exact h

theorem alookup_append_singleton {β : Type} (l : List (String × β)) (k : String) (v : β)
    (h : ∀ e ∈ l, e.1 ≠ k) : alookup (l ++ [(k, v)]) k = some v := by
  induction l with
  | nil => simp [alookup]
  | cons f t ih =>
    have hf := h f (List.mem_cons_self _ _)
    simp only [List.cons_append, alookup, if_neg hf]
    exact ih (fun e he => h e (List.mem_cons_of_mem _ he))

theorem deleteSession_absent (s : SessionStore) (id : String) :
    absentEverywhere (deleteSession s id).2 id :=
  ⟨alookup_aerase_self _ _, alookup_aerase_self _ _, alookup_aerase_self _ _⟩

theorem deleteSession_fields (s : SessionStore) (id : String) :
    (deleteSession s id).2.ipSessions = s.ipSessions ∧
    (deleteSession s id).2.clock = s.clock ∧
    (deleteSession s id).2.sessionTimeout = s.sessionTimeout ∧
    (deleteSession s id).2.maxCacheSize = s.maxCacheSize ∧
    (deleteSession s id).2.maxSessionsPerIp = s.maxSessionsPerIp :=
  ⟨rfl, rfl, rfl, rfl, rfl⟩

theorem reapStep_absent (now : Nat) (st : SessionStore) (k : String) (id : String)
    (h : absentEverywhere st id) : absentEverywhere (reapStep now st k) id := by
  unfold reapStep
  cases hm : alookup st.metaFiles k with
  | none => exact h
  | some m =>
    by_cases he : isExpired st.sessionTimeout m.last_accessed now
    · simp only [he, if_true]
      exact ⟨alookup_aerase_of_none _ _ _ h.1, alookup_aerase_of_none _ _ _ h.2.1,
             alookup_aerase_of_none _ _ _ h.2.2⟩
    · simp only [he, if_false]
      exact h

theorem reapStep_sessionTimeout (now : Nat) (st : SessionStore) (k : String) :
    (reapStep now st k).sessionTimeout = st.sessionTimeout := by
  unfold reapStep
  cases alookup st.metaFiles k with
  | none => rfl
  | some m =>
    by_cases he : isExpired st.sessionTimeout m.last_accessed now
    · simp [he, deleteSession]
    · simp [he]

theorem foldl_reap_absent (now : Nat) (id : String) :
    ∀ (keys : List String) (st : SessionStore), absentEverywhere st id →
      absentEverywhere (keys.foldl (reapStep now) st) id := by
  intro keys
  induction keys with
  | nil => intro st h; exact h
  | cons k rest ih =>
    intro st h
    exact ih (reapStep now st k) (reapStep_absent now st k id h)

theorem foldl_reap_removes (now : Nat) (id : String) (m : Meta) :
    ∀ (keys : List String) (st : SessionStore),
      ((alookup st.metaFiles id = some m ∧ m.session_id = id ∧
        isExpired st.sessionTimeout m.last_accessed now = true ∧ id ∈ keys) ∨
       absentEverywhere st id) →
      absentEverywhere (keys.foldl (reapStep now) st) id := by
  intro keys
  induction keys with
  | nil =>
    intro st h
    rcases h with ⟨_, _, _, hmem⟩ | habs
    · simp at hmem
    · exact habs
  | cons k rest ih =>
    intro st h
    rcases h with ⟨hm, hsid, hexp, hmem⟩ | habs
    · by_cases hk : k = id
      · have hm2 : alookup st.metaFiles k = some m := by rw [hk]; exact hm
        have hstep : reapStep now st k = (deleteSession st m.session_id).2 := by
          simp [reapStep, hm2, hexp]
        rw [List.foldl_cons, hstep, hsid]
        exact foldl_reap_absent now id rest _ (deleteSession_absent st id)
      · have hmem2 : id ∈ rest := by
          rcases List.mem_cons.mp hmem with h1 | h2
          · exact absurd h1.symm hk
          · exact h2
        rw [List.foldl_cons]
        apply ih
        unfold reapStep
        cases hmk : alookup st.metaFiles k with
        | none => exact Or.inl ⟨hm, hsid, hexp, hmem2⟩
        | some mk =>
          by_cases he : isExpired st.sessionTimeout mk.last_accessed now
          · simp only [he, if_true]
            by_cases hks : mk.session_id = id
            · right
              rw [hks]
              exact deleteSession_absent st id
            · left
              refine ⟨?_, hsid, ?_, hmem2⟩
              · show alookup (aerase st.metaFiles mk.session_id) id = some m
                rw [alookup_aerase_ne _ _ _ (fun h2 => hks h2.symm)]
                exact hm
              · show isExpired (deleteSession st mk.session_id).2.sessionTimeout
                    m.last_accessed now = true
                rw [(deleteSession_fields st mk.session_id).2.2.1]
                exact hexp
          · simp only [he, if_false]
            exact Or.inl ⟨hm, hsid, hexp, hmem2⟩
    · rw [List.foldl_cons]
      exact ih _ (Or.inr (reapStep_absent now st k id habs))


theorem metaWF_delete (st : SessionStore) (x : String) (h : MetaWF st) :
    MetaWF (deleteSession st x).2 := by
  intro e he
  exact h e (mem_aerase _ _ _ he)

theorem metaWF_reapStep (now : Nat) (st : SessionStore) (k : String) (h : MetaWF st) :
    MetaWF (reapStep now st k) := by
  unfold reapStep
  cases alookup st.metaFiles k with
  | none => exact h
  | some m =>
    by_cases he : isExpired st.sessionTimeout m.last_accessed now
    · simp only [he, if_true]
      exact metaWF_delete st m.session_id h
    · simp only [he, if_false]
      exact h

theorem foldl_reap_preserves (now : Nat) (id : String) (m : Meta) :
    ∀ (keys : List String) (st : SessionStore),
      MetaWF st → alookup st.metaFiles id = some m →
      isExpired st.sessionTimeout m.last_accessed now = false →
      alookup (keys.foldl (reapStep now) st).sessionCache id =
        alookup st.sessionCache id ∧
      alookup (keys.foldl (reapStep now) st).sessionFiles id =
        alookup st.sessionFiles id ∧
      alookup (keys.foldl (reapStep now) st).metaFiles id = some m := by
  intro keys
  induction keys with
  | nil => intro st _ hm _; exact ⟨rfl, rfl, hm⟩
  | cons k rest ih =>
    intro st hwf hm hexp
    rw [List.foldl_cons]
    have hstep : reapStep now st k = st ∨
        (k ≠ id ∧ reapStep now st k = (deleteSession st k).2) := by
      unfold reapStep
      cases hmk : alookup st.metaFiles k with
      | none => exact Or.inl rfl
      | some mk =>
        have hsk : mk.session_id = k := hwf (k, mk) (alookup_mem _ _ _ hmk)
        by_cases he : isExpired st.sessionTimeout mk.last_accessed now
        · right
          by_cases hk : k = id
          · exfalso
            rw [hk] at hmk
            rw [hm] at hmk
            injection hmk with hmk2
            rw [← hmk2] at he
            rw [hexp] at he
            exact Bool.false_ne_true he
          · simp only [he, if_true, hsk]
            exact ⟨hk, trivial⟩
        · simp only [he, if_false]
          exact Or.inl rfl
    rcases hstep with h1 | ⟨hk, h2⟩
    · rw [h1]
      exact ih st hwf hm hexp
    · rw [h2]
      have hid : id ≠ k := fun h3 => hk h3.symm
      have e1 : alookup (deleteSession st k).2.sessionCache id =
          alookup st.sessionCache id := alookup_aerase_ne _ _ _ hid
      have e2 : alookup (deleteSession st k).2.sessionFiles id =
          alookup st.sessionFiles id := alookup_aerase_ne _ _ _ hid
      have e3 : alookup (deleteSession st k).2.metaFiles id = some m := by
        rw [show (deleteSession st k).2.metaFiles = aerase st.metaFiles k from rfl]
        rw [alookup_aerase_ne _ _ _ hid]
        exact hm
      have e4 : (deleteSession st k).2.sessionTimeout = st.sessionTimeout := rfl
      obtain ⟨r1, r2, r3⟩ := ih (deleteSession st k).2 (metaWF_delete st k hwf) e3
        (by rw [e4]; exact hexp)
      exact ⟨r1.trans e1, r2.trans e2, r3⟩


theorem cachePut_frames (s : SessionStore) (id : String) (p : DocumentProcessor) :
    (cachePut s id p).sessionFiles = s.sessionFiles ∧
    (cachePut s id p).metaFiles = s.metaFiles ∧
    (cachePut s id p).ipSessions = s.ipSessions ∧
    (cachePut s id p).clock = s.clock + 1 ∧
    (cachePut s id p).maxCacheSize = s.maxCacheSize ∧
    (cachePut s id p).sessionTimeout = s.sessionTimeout ∧
    (cachePut s id p).maxSessionsPerIp = s.maxSessionsPerIp :=
  ⟨rfl, rfl, rfl, rfl, rfl, rfl, rfl⟩

theorem cachePut_cache (s : SessionStore) (id : String) (p : DocumentProcessor) :
    (cachePut s id p).sessionCache =
      (if s.maxCacheSize < (aupsert s.sessionCache id (p, s.clock)).length then
        (aupsert s.sessionCache id (p, s.clock)).eraseIdx
          (idxOfMin ((aupsert s.sessionCache id (p, s.clock)).map (fun e => e.2.2)))
      else aupsert s.sessionCache id (p, s.clock)) := rfl

theorem cachePut_length (s : SessionStore) (id : String) (p : DocumentProcessor)
    (h : s.sessionCache.length ≤ s.maxCacheSize) :
    (cachePut s id p).sessionCache.length ≤ s.maxCacheSize := by
  rw [cachePut_cache]
  by_cases hov : s.maxCacheSize < (aupsert s.sessionCache id (p, s.clock)).length
  · rw [if_pos hov]
    have hlen : (aupsert s.sessionCache id (p, s.clock)).length ≤
        s.sessionCache.length + 1 := length_aupsert_le _ _ _
    have hj : idxOfMin ((aupsert s.sessionCache id (p, s.clock)).map (fun e => e.2.2)) <
        (aupsert s.sessionCache id (p, s.clock)).length := by
      have hpos : 0 < ((aupsert s.sessionCache id (p, s.clock)).map
          (fun e => e.2.2)).length := by
        rw [List.length_map]
        omega
      have := idxOfMin_lt _ hpos
      rw [List.length_map] at this
      exact this
    have := List.length_eraseIdx_add_one hj
    omega
  · rw [if_neg hov]
    omega

theorem cachePut_lookup (s : SessionStore) (id : String) (p : DocumentProcessor)
    (hnd : (keysOf s.sessionCache).Nodup)
    (hts : ∀ e ∈ s.sessionCache, e.2.2 < s.clock)
    (hmax : 1 ≤ s.maxCacheSize) :
    alookup (cachePut s id p).sessionCache id = some (p, s.clock) := by
  rw [cachePut_cache]
  have hself : alookup (aupsert s.sessionCache id (p, s.clock)) id =
      some (p, s.clock) := alookup_aupsert_self _ _ _
  by_cases hov : s.maxCacheSize < (aupsert s.sessionCache id (p, s.clock)).length
  · rw [if_pos hov]
    set c1 := aupsert s.sessionCache id (p, s.clock) with hc1
    have hnd1 : (keysOf c1).Nodup := keysNodup_aupsert _ _ _ hnd
    have hlen2 : 2 ≤ c1.length := by omega
    -- some entry of c1 other than the id entry exists; all such have tick < s.clock
    have hj : idxOfMin (c1.map (fun e => e.2.2)) < c1.length := by
      have hpos : 0 < (c1.map (fun e => e.2.2)).length := by
        rw [List.length_map]
        omega
      have := idxOfMin_lt _ hpos
      rw [List.length_map] at this
      exact this
    have hgetmap : ∀ (i : Nat) (hi : i < c1.length),
        (c1.map (fun e => e.2.2)).getD i 0 = (c1.get ⟨i, hi⟩).2.2 := by
      intro i hi
      rw [List.getD_eq_getElem?_getD, List.getElem?_map,
        List.getElem?_eq_getElem hi]
      rfl
    -- there are two entries with distinct keys, so some entry has key other than id
    have hc1ne : c1 ≠ [] := by
      intro hnil
      rw [hnil] at hlen2
      simp at hlen2
    obtain ⟨e1, t1, ht1⟩ := List.exists_cons_of_ne_nil hc1ne
    have ht1ne : t1 ≠ [] := by
      intro hnil
      rw [ht1, hnil] at hlen2
      simp at hlen2
    obtain ⟨e2, t2, ht2⟩ := List.exists_cons_of_ne_nil ht1ne
    have hsplit : c1 = e1 :: e2 :: t2 := by rw [ht1, ht2]
    have hne12 : e1.1 ≠ e2.1 := by
      have hx := hnd1
      rw [hsplit, keysOf_cons, keysOf_cons, List.nodup_cons] at hx
      intro hq
      exact hx.1 (by rw [hq]; exact List.mem_cons_self _ _)
    obtain ⟨f, hfmem, hfne⟩ : ∃ f ∈ c1, f.1 ≠ id := by
      by_cases h1 : e1.1 = id
      · refine ⟨e2, ?_, fun h2 => hne12 (by rw [h1, h2])⟩
        rw [hsplit]
        exact List.mem_cons_of_mem _ (List.mem_cons_self _ _)
      · refine ⟨e1, ?_, h1⟩
        rw [hsplit]
        exact List.mem_cons_self _ _
    have hflt : f.2.2 < s.clock := by
      rcases mem_aupsert _ _ _ _ hfmem with h1 | h2
      · exact absurd (by rw [h1]) hfne
      · exact hts f h2
    obtain ⟨i, hfi⟩ := List.mem_iff_get.mp hfmem
    have hminle : (c1.map (fun e => e.2.2)).getD (idxOfMin (c1.map (fun e => e.2.2))) 0 ≤
        f.2.2 := by
      have hstep := getD_idxOfMin_le (c1.map (fun e => e.2.2)) i.1
        (by rw [List.length_map]; exact i.2)
      rw [hgetmap i.1 i.2] at hstep
      rw [show c1.get ⟨i.1, i.2⟩ = f from by rw [← hfi]] at hstep
      exact hstep
    have hjts : (c1.get ⟨_, hj⟩).2.2 < s.clock := by
      have hh := hgetmap (idxOfMin (c1.map (fun e => e.2.2))) hj
      rw [hh] at hminle
      omega
    have hjne : (c1.get ⟨_, hj⟩).1 ≠ id := by
      intro hq
      have hmem2 : ((c1.get ⟨_, hj⟩).1, (c1.get ⟨_, hj⟩).2) ∈ c1 :=
        List.get_mem c1 _ hj
      rw [hq] at hmem2
      have hh := alookup_of_mem_nodup _ _ _ hnd1 hmem2
      rw [hself] at hh
      injection hh with h2
      rw [← h2] at hjts
      exact lt_irrefl _ hjts
    rw [alookup_eraseIdx_ne c1 _ hj id hjne]
    exact hself
  · rw [if_neg hov]
    exact hself

theorem diskWrite_frames (s2 : SessionStore) (id : String) (p : DocumentProcessor)
    (ip : Option String) :
    (diskWrite s2 id p ip).sessionCache = s2.sessionCache ∧
    (diskWrite s2 id p ip).ipSessions = s2.ipSessions ∧
    (diskWrite s2 id p ip).maxCacheSize = s2.maxCacheSize ∧
    (diskWrite s2 id p ip).sessionTimeout = s2.sessionTimeout ∧
    (diskWrite s2 id p ip).maxSessionsPerIp = s2.maxSessionsPerIp ∧
    (diskWrite s2 id p ip).clock = s2.clock + 2 ∧
    alookup (diskWrite s2 id p ip).sessionFiles id = some p ∧
    alookup (diskWrite s2 id p ip).metaFiles id =
      some { session_id := id, created_at := s2.clock,
             last_accessed := s2.clock + 1, ip_address := ip } :=
  ⟨rfl, rfl, rfl, rfl, rfl, rfl, alookup_aupsert_self _ _ _, alookup_aupsert_self _ _ _⟩

theorem quotaRegister_spec (s : SessionStore) (id : String) (ip : Option String)
    (s1 : SessionStore) (h : quotaRegister s id ip = some s1) :
    s1.clock = s.clock ∧ s1.maxCacheSize = s.maxCacheSize ∧
    s1.maxSessionsPerIp = s.maxSessionsPerIp ∧ s1.sessionTimeout = s.sessionTimeout ∧
    (∀ e, e ∈ s1.sessionCache → e ∈ s.sessionCache) ∧
    s1.sessionCache.length ≤ s.sessionCache.length ∧
    ((keysOf s.sessionCache).Nodup → (keysOf s1.sessionCache).Nodup) := by
  cases ip with
  | none =>
    simp only [quotaRegister] at h
    injection h with h
    subst h
    exact ⟨rfl, rfl, rfl, rfl, fun e he => he, le_refl _, fun x => x⟩
  | some c =>
    simp only [quotaRegister] at h
    by_cases hc : c = ""
    · rw [if_pos hc] at h
      injection h with h
      subst h
      exact ⟨rfl, rfl, rfl, rfl, fun e he => he, le_refl _, fun x => x⟩
    · rw [if_neg hc] at h
      by_cases hlen : s.maxSessionsPerIp ≤ ((alookup s.ipSessions c).getD []).length
      · rw [if_pos hlen] at h
        cases hll : (alookup s.ipSessions c).getD [] with
        | nil =>
          rw [hll] at h
          exact absurd h (by simp)
        | cons o rest =>
          rw [hll] at h
          injection h with h
          subst h
          refine ⟨rfl, rfl, rfl, rfl, ?_, ?_, ?_⟩
          · exact fun e he => mem_aerase _ _ _ he
          · exact length_aerase_le _ _
          · exact fun hnd => keysNodup_aerase _ _ hnd
      · rw [if_neg hlen] at h
        injection h with h
        subst h
        exact ⟨rfl, rfl, rfl, rfl, fun e he => he, le_refl _, fun x => x⟩


theorem loadSession_hit (s : SessionStore) (id : String) (p : DocumentProcessor) (ts : Nat)
    (h : alookup s.sessionCache id = some (p, ts)) :
    loadSession s id =
      (some p, { s with sessionCache := aupsert s.sessionCache id (p, s.clock),
                        clock := s.clock + 1 }) := by
  simp [loadSession, h]

theorem loadSession_miss_absent (s : SessionStore) (id : String)
    (h1 : alookup s.sessionCache id = none) (h2 : alookup s.sessionFiles id = none) :
    loadSession s id = (none, s) := by
  simp [loadSession, h1, h2]

theorem saveSession_decomp (s : SessionStore) (id : String) (p : DocumentProcessor)
    (ip : Option String) (s' : SessionStore) (h : saveSession s id p ip = some s') :
    ∃ s1, quotaRegister s id ip = some s1 ∧ s' = diskWrite (cachePut s1 id p) id p ip := by
  unfold saveSession at h
  rcases Option.map_eq_some'.mp h with ⟨s1, h1, h2⟩
  exact ⟨s1, h1, h2.symm⟩

theorem quotaNext_length (max : Nat) (l : List String) (id : String)
    (hb : l.length ≤ max) (hmax : 1 ≤ max) : (quotaNext max l id).length ≤ max := by
  unfold quotaNext
  by_cases hlen : max ≤ l.length
  · rw [if_pos hlen]
    cases l with
    | nil => simp at hlen; omega
    | cons x t =>
      simp only [List.tail_cons, List.length_append, List.length_singleton]
      simp only [List.length_cons] at hb hlen
      omega
  · rw [if_neg hlen]
    simp only [List.length_append, List.length_singleton]
    omega

theorem quotaRegister_ip_some (s : SessionStore) (id c : String)
    (hc : c ≠ "") (hmax : 1 ≤ s.maxSessionsPerIp) :
    ∃ s1, quotaRegister s id (some c) = some s1 ∧
      getSessionsForIp s1 c = quotaNext s.maxSessionsPerIp (getSessionsForIp s c) id ∧
      s1.maxSessionsPerIp = s.maxSessionsPerIp := by
  have hl : getSessionsForIp s c = (alookup s.ipSessions c).getD [] := rfl
  show (∃ s1,
      (if c = "" then some s
       else
        let l := (alookup s.ipSessions c).getD []
        if s.maxSessionsPerIp ≤ l.length then
          match l with
          | [] => none
          | oldest :: rest =>
            let s1 := (deleteSession s oldest).2
            some { s1 with ipSessions := aupsert s1.ipSessions c (rest ++ [id]) }
        else
          some { s with ipSessions := aupsert s.ipSessions c (l ++ [id]) }) = some s1 ∧
      getSessionsForIp s1 c = quotaNext s.maxSessionsPerIp (getSessionsForIp s c) id ∧
      s1.maxSessionsPerIp = s.maxSessionsPerIp)
  rw [if_neg hc]
  by_cases hlen : s.maxSessionsPerIp ≤ ((alookup s.ipSessions c).getD []).length
  · rw [if_pos hlen]
    cases hll : (alookup s.ipSessions c).getD [] with
    | nil =>
      rw [hll] at hlen
      simp at hlen
      omega
    | cons o rest =>
      refine ⟨_, rfl, ?_, rfl⟩
      show (alookup (aupsert s.ipSessions c (rest ++ [id])) c).getD [] =
        quotaNext s.maxSessionsPerIp (getSessionsForIp s c) id
      rw [alookup_aupsert_self]
      unfold quotaNext
      rw [hl, hll]
      rw [if_pos (by rw [hll] at hlen; exact hlen)]
      rfl
  · rw [if_neg hlen]
    refine ⟨_, rfl, ?_, rfl⟩
    show (alookup (aupsert s.ipSessions c
        (((alookup s.ipSessions c).getD []) ++ [id])) c).getD [] =
      quotaNext s.maxSessionsPerIp (getSessionsForIp s c) id
    rw [alookup_aupsert_self]
    unfold quotaNext
    rw [hl]
    rw [if_neg hlen]
    rfl

theorem saveSession_ip_quota (s : SessionStore) (id c : String) (p : DocumentProcessor)
    (hc : c ≠ "") (hmax : 1 ≤ s.maxSessionsPerIp) :
    ∃ s', saveSession s id p (some c) = some s' ∧
      getSessionsForIp s' c = quotaNext s.maxSessionsPerIp (getSessionsForIp s c) id ∧
      s'.maxSessionsPerIp = s.maxSessionsPerIp := by
  obtain ⟨s1, hq, hlist, hmp⟩ := quotaRegister_ip_some s id c hc hmax
  refine ⟨diskWrite (cachePut s1 id p) id p (some c), ?_, ?_, ?_⟩
  · unfold saveSession
    rw [hq]
    rfl
  · have hip : (diskWrite (cachePut s1 id p) id p (some c)).ipSessions =
        s1.ipSessions := rfl
    show (alookup (diskWrite (cachePut s1 id p) id p (some c)).ipSessions c).getD [] =
      quotaNext s.maxSessionsPerIp (getSessionsForIp s c) id
    rw [hip]
    exact hlist
  · show (diskWrite (cachePut s1 id p) id p (some c)).maxSessionsPerIp =
      s.maxSessionsPerIp
    rw [show (diskWrite (cachePut s1 id p) id p (some c)).maxSessionsPerIp =
      s1.maxSessionsPerIp from rfl]
    exact hmp

theorem lastN_of_le (m : Nat) (l : List String) (h : l.length ≤ m) : lastN m l = l := by
  unfold lastN
  rw [Nat.sub_eq_zero_of_le h, List.drop_zero]

theorem lastN_cons (m : Nat) (x : String) (xs : List String) (h : m ≤ xs.length) :
    lastN m (x :: xs) = lastN m xs := by
  unfold lastN
  have h2 : (x :: xs).length - m = (xs.length - m) + 1 := by
    simp only [List.length_cons]
    omega
  rw [h2, List.drop_succ_cons]

theorem saveAll_nil (s : SessionStore) (c : String) : saveAll s c [] = some s := rfl

theorem foldl_bind_none (c : String) (ps : List (String × DocumentProcessor)) :
    ps.foldl (fun acc e => acc.bind (fun st => saveSession st e.1 e.2 (some c)))
      none = none := by
  induction ps with
  | nil => rfl
  | cons e t ih => simp only [List.foldl_cons, Option.none_bind]; exact ih

theorem saveAll_cons (s : SessionStore) (c : String) (e : String × DocumentProcessor)
    (ps : List (String × DocumentProcessor)) :
    saveAll s c (e :: ps) =
      (saveSession s e.1 e.2 (some c)).bind (fun s1 => saveAll s1 c ps) := by
  unfold saveAll
  rw [List.foldl_cons]
  cases h : saveSession s e.1 e.2 (some c) with
  | none =>
    simp only [Option.some_bind, h, Option.none_bind]
    exact foldl_bind_none c ps
  | some s1 => simp only [Option.some_bind, h]

theorem saveAll_quota (c : String) (hc : c ≠ "") :
    ∀ (ps : List (String × DocumentProcessor)) (s : SessionStore),
      1 ≤ s.maxSessionsPerIp →
      (getSessionsForIp s c).length ≤ s.maxSessionsPerIp →
      ∃ s', saveAll s c ps = some s' ∧
        getSessionsForIp s' c =
          lastN s.maxSessionsPerIp (getSessionsForIp s c ++ ps.map (fun e => e.1)) ∧
        s'.maxSessionsPerIp = s.maxSessionsPerIp ∧
        (getSessionsForIp s' c).length ≤ s.maxSessionsPerIp := by
  intro ps
  induction ps with
  | nil =>
    intro s hmax hbound
    refine ⟨s, saveAll_nil s c, ?_, rfl, hbound⟩
    rw [List.map_nil, List.append_nil, lastN_of_le _ _ hbound]
  | cons e ps ih =>
    intro s hmax hbound
    obtain ⟨s1, hsave, hlist, hmp⟩ := saveSession_ip_quota s e.1 c e.2 hc hmax
    have hmax1 : 1 ≤ s1.maxSessionsPerIp := by rw [hmp]; exact hmax
    have hbound1 : (getSessionsForIp s1 c).length ≤ s1.maxSessionsPerIp := by
      rw [hmp, hlist]
      exact quotaNext_length _ _ _ hbound hmax
    obtain ⟨s', hall, hlist', hmp', hbound'⟩ := ih s1 hmax1 hbound1
    refine ⟨s', ?_, ?_, ?_, ?_⟩
    · rw [saveAll_cons, hsave, Option.some_bind]
      exact hall
    · rw [hlist', hlist, hmp]
      set l := getSessionsForIp s c with hldef
      set R := ps.map (fun e => e.1) with hRdef
      show lastN s.maxSessionsPerIp (quotaNext s.maxSessionsPerIp l e.1 ++ R) =
        lastN s.maxSessionsPerIp (l ++ (e.1 :: R))
      by_cases hlen : s.maxSessionsPerIp ≤ l.length
      · have hleq : l.length = s.maxSessionsPerIp := le_antisymm hbound hlen
        cases hl : l with
        | nil =>
          rw [hl] at hleq
          simp at hleq
          omega
        | cons x t =>
          unfold quotaNext
          rw [← hl, if_pos hlen, hl, List.tail_cons]
          have hassoc : (t ++ [e.1]) ++ R = t ++ (e.1 :: R) := by
            rw [List.append_assoc, List.singleton_append]
          rw [hassoc, List.cons_append, lastN_cons]
          rw [List.length_append, List.length_cons]
          rw [hl] at hleq
          simp only [List.length_cons] at hleq
          omega
      · unfold quotaNext
        rw [if_neg hlen, List.append_assoc, List.singleton_append]
    · rw [hmp']
      exact hmp
    · rw [hmp] at hbound'
      exact hbound'


theorem queryDocument_spec (dp : DocumentProcessor) (engine : String → EngineResp)
    (rt : Nat) (q : String) (r : QueryResponse) (dp' : DocumentProcessor)
    (h : queryDocument dp engine rt q = some (r, dp')) :
    dp.index.isNone = false ∧
    dp'.index = dp.index ∧ dp'.cacheSizeMax = dp.cacheSizeMax ∧
    alookup dp'.responseCache (normalizeQuery q) = some r ∧
    ((alookup dp.responseCache (normalizeQuery q) = some r ∧ dp' = dp) ∨
     (alookup dp.responseCache (normalizeQuery q) = none ∧
      ((dp.cacheSizeMax ≤ dp.responseCache.length ∧ dp.responseCache ≠ [] ∧
        dp'.responseCache = dp.responseCache.tail ++ [(normalizeQuery q, r)]) ∨
       (dp.responseCache.length < dp.cacheSizeMax ∧
        dp'.responseCache = dp.responseCache ++ [(normalizeQuery q, r)])))) := by
  unfold queryDocument at h
  by_cases hidx : dp.index.isNone
  · rw [if_pos hidx] at h
    exact absurd h (by simp)
  · rw [if_neg hidx] at h
    simp only [Bool.not_eq_true] at hidx
    simp only [] at h
    cases hlook : alookup dp.responseCache (normalizeQuery q) with
    | some cch =>
      rw [hlook] at h
      injection h with h2
      have hr : cch = r := congrArg Prod.fst h2
      have hdp : dp = dp' := congrArg Prod.snd h2
      subst hr
      subst hdp
      exact ⟨hidx, rfl, rfl, hlook, Or.inl ⟨rfl, rfl⟩⟩
    | none =>
      rw [hlook] at h
      by_cases hemp : pyStrip (engine q).text = ""
      · rw [if_pos hemp] at h
        exact absurd h (by simp)
      · rw [if_neg hemp] at h
        have hkeys : ∀ e ∈ dp.responseCache, e.1 ≠ normalizeQuery q :=
          (alookup_eq_none_iff _ _).mp hlook
        by_cases hcap : dp.cacheSizeMax ≤ dp.responseCache.length
        · rw [if_pos hcap] at h
          cases hcc : dp.responseCache with
          | nil =>
            rw [hcc] at h
            exact absurd h (by simp)
          | cons x t =>
            rw [hcc] at h
            injection h with h2
            have hr := congrArg Prod.fst h2
            have hdp := congrArg Prod.snd h2
            simp only at hr hdp
            refine ⟨hidx, by rw [← hdp], by rw [← hdp], ?_, ?_⟩
            · rw [← hdp]
              show alookup (t ++ [(normalizeQuery q, _)]) (normalizeQuery q) = some r
              rw [hr]
              apply alookup_append_singleton
              intro e he
              exact hkeys e (by rw [hcc]; exact List.mem_cons_of_mem _ he)
            · right
              refine ⟨rfl, Or.inl ⟨by rw [hcc] at hcap; exact hcap, by simp, ?_⟩⟩
              rw [← hdp]
              show t ++ [(normalizeQuery q, _)] = (x :: t).tail ++ [(normalizeQuery q, r)]
              rw [hr, List.tail_cons]
        · rw [if_neg hcap] at h
          injection h with h2
          have hr := congrArg Prod.fst h2
          have hdp := congrArg Prod.snd h2
          simp only at hr hdp
          refine ⟨hidx, by rw [← hdp], by rw [← hdp], ?_, ?_⟩
          · rw [← hdp]
            show alookup (dp.responseCache ++ [(normalizeQuery q, _)])
              (normalizeQuery q) = some r
            rw [hr]
            exact alookup_append_singleton _ _ _ hkeys
          · right
            refine ⟨rfl, Or.inr ⟨by omega, ?_⟩⟩
            rw [← hdp]
            show dp.responseCache ++ [(normalizeQuery q, _)] =
              dp.responseCache ++ [(normalizeQuery q, r)]
            rw [hr]

theorem cleanupOnce_eq (s : SessionStore) :
    cleanupOnce s =
      ((phase1 s).metaFiles.map (fun e => e.1)).foldl (reapStep s.clock) (phase1 s) := rfl

theorem phase1_frames (s : SessionStore) :
    (phase1 s).metaFiles = s.metaFiles ∧ (phase1 s).sessionFiles = s.sessionFiles ∧
    (phase1 s).sessionTimeout = s.sessionTimeout ∧ (phase1 s).clock = s.clock + 1 :=
  ⟨rfl, rfl, rfl, rfl⟩

theorem phase1_cacheLookup (s : SessionStore) (id : String)
    (h : ∀ e ∈ s.sessionCache, e.1 = id → isExpired s.sessionTimeout e.2.2 s.clock = false) :
    alookup (phase1 s).sessionCache id = alookup s.sessionCache id := by
  show alookup (s.sessionCache.filter
    (fun e => !(isExpired s.sessionTimeout e.2.2 s.clock))) id = alookup s.sessionCache id
  apply alookup_filter_of_key
  intro e he hk
  rw [h e he hk]
  rfl

theorem loadSession_disk (s : SessionStore) (id : String) (p : DocumentProcessor) (m : Meta)
    (h1 : alookup s.sessionCache id = none) (h2 : alookup s.sessionFiles id = some p)
    (h3 : p.index.isSome = true) (h4 : alookup s.metaFiles id = some m) :
    loadSession s id =
      (some p,
       { s with sessionCache := aupsert s.sessionCache id (p, s.clock),
                metaFiles := aupsert s.metaFiles id { m with last_accessed := s.clock + 1 },
                clock := s.clock + 2 }) := by
  obtain ⟨n, hn⟩ := Option.isSome_iff_exists.mp h3
  simp [loadSession, h1, h2, hn, h4]


/-- C2 (amended): a successful delete_session reports success and removes
the session id from the hot cache and from both durable maps (payload and
metadata), but it leaves the quota tracker untouched: ip_sessions is
unchanged, so the id still appears in get_sessions_for_ip of its client. -/
theorem claim_C2_delete_two_tiers (s : SessionStore) (id : String) :
    (deleteSession s id).1 = true ∧
    alookup (deleteSession s id).2.sessionCache id = none ∧
    alookup (deleteSession s id).2.sessionFiles id = none ∧
    alookup (deleteSession s id).2.metaFiles id = none ∧
    (deleteSession s id).2.ipSessions = s.ipSessions :=
  ⟨rfl, alookup_aerase_self _ _, alookup_aerase_self _ _, alookup_aerase_self _ _, rfl⟩

/-- C2 counterexample: after saving session s1 for client 10.0.0.1 and then
successfully deleting it, s1 still appears in the quota list of that
client, contradicting the claim that delete removes it from all three
tiers. -/
theorem claim_C2_cex :
    (deleteSession cexStoreC2 "s1").1 = true ∧
    "s1" ∈ getSessionsForIp (deleteSession cexStoreC2 "s1").2 "10.0.0.1" := by
  decide

/-- C3 (amended): after a delete, load reports NotFound (None) and leaves
the state untouched, and a second delete of the same id is harmless: it
reports success (True, not NotFound) and changes nothing. -/
theorem claim_C3_delete_idempotent (s : SessionStore) (id : String) :
    (loadSession (deleteSession s id).2 id).1 = none ∧
    (loadSession (deleteSession s id).2 id).2 = (deleteSession s id).2 ∧
    (deleteSession (deleteSession s id).2 id).1 = true ∧
    (deleteSession (deleteSession s id).2 id).2 = (deleteSession s id).2 := by
  have h1 : alookup (deleteSession s id).2.sessionCache id = none := alookup_aerase_self _ _
  have h2 : alookup (deleteSession s id).2.sessionFiles id = none := alookup_aerase_self _ _
  have hload := loadSession_miss_absent (deleteSession s id).2 id h1 h2
  refine ⟨by rw [hload], by rw [hload], rfl, ?_⟩
  simp only [deleteSession, aerase_idem]

/-- C3 counterexample: deleting an id that is absent (here, deleting x
twice in a row from a fresh store) reports success (True), not NotFound,
contradicting the claim that the second delete reports NotFound. -/
theorem claim_C3_cex :
    (deleteSession (deleteSession (initStore 5 24) "x").2 "x").1 = true := rfl

/-- C6: the hot-cache insertion step (save_session lines 99-105), including
any capacity eviction it performs, leaves both durable maps untouched, and
any session absent from the resulting hot cache but present on disk with a
live payload is still returned by a subsequent load (promoted back from
durable storage): hot-tier eviction never loses data. -/
theorem claim_C6_eviction_preserves_disk (s : SessionStore) (id : String)
    (p : DocumentProcessor) (sid : String) (q : DocumentProcessor)
    (hevicted : alookup (cachePut s id p).sessionCache sid = none)
    (hdisk : alookup s.sessionFiles sid = some q)
    (hindex : q.index.isSome = true) :
    (cachePut s id p).sessionFiles = s.sessionFiles ∧
    (cachePut s id p).metaFiles = s.metaFiles ∧
    (loadSession (cachePut s id p) sid).1 = some q := by
  refine ⟨rfl, rfl, ?_⟩
  obtain ⟨n, hn⟩ := Option.isSome_iff_exists.mp hindex
  have hdisk2 : alookup (cachePut s id p).sessionFiles sid = some q := hdisk
  cases hmeta : alookup (cachePut s id p).metaFiles sid with
  | none => simp [loadSession, hevicted, hdisk2, hn, hmeta]
  | some mm => simp [loadSession, hevicted, hdisk2, hn, hmeta]

/-- C6 witness: capacity-1 cache, inserting b evicts the durably backed a,
and loading a afterwards still returns its payload. -/
theorem claim_C6_witness :
    (cachePut wStoreC6 "b" procB).sessionFiles = wStoreC6.sessionFiles ∧
    (cachePut wStoreC6 "b" procB).metaFiles = wStoreC6.metaFiles ∧
    (loadSession (cachePut wStoreC6 "b" procB) "a").1 = some procA :=
  claim_C6_eviction_preserves_disk wStoreC6 "b" procB "a" procA (by decide) (by decide)
    (by decide)

/-- C7: save_session followed immediately by load_session of the same id
returns the saved payload unchanged, for any payload and any client id. -/
theorem claim_C7_roundtrip (s : SessionStore) (id : String) (p : DocumentProcessor)
    (ip : Option String) (s' : SessionStore)
    (hsave : saveSession s id p ip = some s')
    (hnd : (keysOf s.sessionCache).Nodup)
    (hts : ∀ e ∈ s.sessionCache, e.2.2 < s.clock)
    (hmax : 1 ≤ s.maxCacheSize) :
    (loadSession s' id).1 = some p := by
  obtain ⟨s1, hq, hs'⟩ := saveSession_decomp s id p ip s' hsave
  obtain ⟨hc, hm, _, _, hsub, _, hndp⟩ := quotaRegister_spec s id ip s1 hq
  have hts1 : ∀ e ∈ s1.sessionCache, e.2.2 < s1.clock := by
    intro e he
    rw [hc]
    exact hts e (hsub e he)
  have hl := cachePut_lookup s1 id p (hndp hnd) hts1 (by rw [hm]; exact hmax)
  have hcc : alookup s'.sessionCache id = some (p, s1.clock) := by
    rw [hs']
    exact hl
  rw [loadSession_hit s' id p s1.clock hcc]

/-- C7 witness: the round trip evaluated on a fresh store. -/
theorem claim_C7_witness :
    (loadSession ((saveSession (initStore 5 24) "a" procA none).getD (initStore 5 24))
      "a").1 = some procA :=
  claim_C7_roundtrip (initStore 5 24) "a" procA none _ (by rfl) (by decide) (by decide)
    (by decide)

/-- C10: registering a session id that is already in its client quota list
appends it again: the list gains a second occurrence of the same id, which
therefore occupies two quota slots. -/
theorem claim_C10_duplicate_registration (s : SessionStore) (c sid : String)
    (p : DocumentProcessor) (hc : c ≠ "")
    (hmem : sid ∈ getSessionsForIp s c)
    (hlen : (getSessionsForIp s c).length < s.maxSessionsPerIp) :
    ∃ s', saveSession s sid p (some c) = some s' ∧
      getSessionsForIp s' c = getSessionsForIp s c ++ [sid] ∧
      2 ≤ (getSessionsForIp s' c).count sid := by
  have hmax : 1 ≤ s.maxSessionsPerIp := by omega
  obtain ⟨s', hsave, hlist, _⟩ := saveSession_ip_quota s sid c p hc hmax
  have hql : quotaNext s.maxSessionsPerIp (getSessionsForIp s c) sid =
      getSessionsForIp s c ++ [sid] := by
    unfold quotaNext
    rw [if_neg (by omega)]
  refine ⟨s', hsave, by rw [hlist, hql], ?_⟩
  rw [hlist, hql, List.count_append]
  have hpos : 0 < (getSessionsForIp s c).count sid := List.count_pos_iff.mpr hmem
  have hone : List.count sid [sid] = 1 := by simp
  omega

/-- C10 witness: saving s again for client c, whose list already holds s,
yields the list s, s with two occurrences. -/
theorem claim_C10_witness :
    ∃ s', saveSession wStoreC10 "s" procA (some "c") = some s' ∧
      getSessionsForIp s' "c" = getSessionsForIp wStoreC10 "c" ++ ["s"] ∧
      2 ≤ (getSessionsForIp s' "c").count "s" :=
  claim_C10_duplicate_registration wStoreC10 "c" "s" procA (by decide) (by decide)
    (by decide)


/-- C8: two queries that normalize identically (same trimmed, lowercased
text) key the response cache identically: after a successful
query_document on the first query produced response r and state dp2, a
query_document on the second query is a cache hit that returns exactly r
and leaves the state unchanged, whatever engine or timing the second call
would have used. -/
theorem claim_C8_normalized_cache_hit (dp : DocumentProcessor)
    (e1 e2 : String → EngineResp) (rt1 rt2 : Nat) (q1 q2 : String)
    (r : QueryResponse) (dp2 : DocumentProcessor)
    (hq : normalizeQuery q1 = normalizeQuery q2)
    (h : queryDocument dp e1 rt1 q1 = some (r, dp2)) :
    queryDocument dp2 e2 rt2 q2 = some (r, dp2) := by
  obtain ⟨hidx, hidx2, _, hlook, _⟩ := queryDocument_spec dp e1 rt1 q1 r dp2 h
  have hidx3 : dp2.index.isNone = false := by rw [hidx2]; exact hidx
  have hlook2 : alookup dp2.responseCache (normalizeQuery q2) = some r := by
    rw [← hq]
    exact hlook
  simp [queryDocument, hidx3, hlook2]

/-- C8 witness: the example of the spec, put of Hello World with extra
whitespace and capitals, then get of the lowercase query, returns the
cached response through a different engine. -/
theorem claim_C8_witness :
    queryDocument dpC8after engOther 9 "hello world" = some (rC8, dpC8after) :=
  claim_C8_normalized_cache_hit procA engC engOther 7 9 "  Hello World  "
    "hello world" rC8 dpC8after (by decide) (by rfl)

/-- C9: the response cache never exceeds its capacity: a successful
query_document keeps the cache size bounded by cacheSizeMax, and an
insertion performed exactly at capacity first removes the oldest-inserted
entry (the head) and then appends, leaving exactly capacity entries; the
capacity defaults to 100. -/
theorem claim_C9_capacity (dp : DocumentProcessor) (engine : String → EngineResp)
    (rt : Nat) (q : String) (r : QueryResponse) (dp2 : DocumentProcessor)
    (h : queryDocument dp engine rt q = some (r, dp2))
    (hb : dp.responseCache.length ≤ dp.cacheSizeMax) :
    dp2.responseCache.length ≤ dp.cacheSizeMax ∧
    (dp.responseCache.length = dp.cacheSizeMax →
      alookup dp.responseCache (normalizeQuery q) = none →
      dp2.responseCache = dp.responseCache.tail ++ [(normalizeQuery q, r)] ∧
      dp2.responseCache.length = dp.cacheSizeMax) ∧
    initDocumentProcessor.cacheSizeMax = 100 := by
  obtain ⟨_, _, _, _, hcase⟩ := queryDocument_spec dp engine rt q r dp2 h
  rcases hcase with ⟨hlook, hdp⟩ | ⟨hlook, hcase2⟩
  · subst hdp
    refine ⟨hb, ?_, rfl⟩
    intro _ hmiss
    rw [hlook] at hmiss
    exact absurd hmiss (by simp)
  · rcases hcase2 with ⟨hcap, hne, heq⟩ | ⟨hlt, heq⟩
    · have hlen1 : 0 < dp.responseCache.length := List.length_pos.mpr hne
      have hlen : dp2.responseCache.length = dp.responseCache.length := by
        rw [heq, List.length_append, List.length_tail]
        simp only [List.length_singleton]
        omega
      refine ⟨by omega, ?_, rfl⟩
      intro hcapeq _
      exact ⟨heq, by omega⟩
    · have hlen : dp2.responseCache.length = dp.responseCache.length + 1 := by
        rw [heq, List.length_append]
        simp
      refine ⟨by omega, ?_, rfl⟩
      intro hcapeq _
      exact absurd hcapeq (by omega)

/-- C9 witness: a capacity-2 cache at capacity receives one more entry and
ends with exactly 2 entries, the oldest dropped. -/
theorem claim_C9_witness :
    dpC9after.responseCache.length ≤ wDpC9.cacheSizeMax ∧
    (wDpC9.responseCache.length = wDpC9.cacheSizeMax →
      alookup wDpC9.responseCache (normalizeQuery "c") = none →
      dpC9after.responseCache = wDpC9.responseCache.tail ++ [(normalizeQuery "c", rC9)] ∧
      dpC9after.responseCache.length = wDpC9.cacheSizeMax) ∧
    initDocumentProcessor.cacheSizeMax = 100 :=
  claim_C9_capacity wDpC9 engC 5 "c" rC9 dpC9after (by decide) (by decide)

/-- C4: a sequence of saves with distinct ids for one non-empty client id,
longer than max_sessions_per_ip and starting from an empty quota list,
leaves the quota list holding exactly the max_sessions_per_ip most
recently registered ids in registration order (the suffix of the id
sequence), with length exactly max_sessions_per_ip, and the list length
never exceeds max_sessions_per_ip after any prefix of the saves. -/
theorem claim_C4_quota_fifo (s : SessionStore) (c : String)
    (ps : List (String × DocumentProcessor))
    (hc : c ≠ "") (hmax : 1 ≤ s.maxSessionsPerIp)
    (hempty : getSessionsForIp s c = [])
    (hover : s.maxSessionsPerIp < ps.length)
    (_hnd : (ps.map (fun e => e.1)).Nodup) :
    ∃ s', saveAll s c ps = some s' ∧
      getSessionsForIp s' c =
        (ps.map (fun e => e.1)).drop (ps.length - s.maxSessionsPerIp) ∧
      (getSessionsForIp s' c).length = s.maxSessionsPerIp ∧
      ∀ k, ∃ sk, saveAll s c (ps.take k) = some sk ∧
        (getSessionsForIp sk c).length ≤ s.maxSessionsPerIp := by
  obtain ⟨s', hall, hlist, hmp, hbound⟩ :=
    saveAll_quota c hc ps s hmax (by rw [hempty]; simp)
  have hlist2 : getSessionsForIp s' c =
      (ps.map (fun e => e.1)).drop (ps.length - s.maxSessionsPerIp) := by
    rw [hlist, hempty, List.nil_append]
    unfold lastN
    rw [List.length_map]
  refine ⟨s', hall, hlist2, ?_, ?_⟩
  · rw [hlist2, List.length_drop, List.length_map]
    omega
  · intro k
    obtain ⟨sk, hk, _, _, hkb⟩ :=
      saveAll_quota c hc (ps.take k) s hmax (by rw [hempty]; simp)
    exact ⟨sk, hk, hkb⟩

/-- C4 witness: quota 2, three saves a, b, d: the list ends as b, d. -/
theorem claim_C4_witness :
    ∃ s', saveAll (initStore 2 24) "c" psC4 = some s' ∧
      getSessionsForIp s' "c" =
        (psC4.map (fun e => e.1)).drop (psC4.length - (initStore 2 24).maxSessionsPerIp) ∧
      (getSessionsForIp s' "c").length = (initStore 2 24).maxSessionsPerIp ∧
      ∀ k, ∃ sk, saveAll (initStore 2 24) "c" (psC4.take k) = some sk ∧
        (getSessionsForIp sk "c").length ≤ (initStore 2 24).maxSessionsPerIp :=
  claim_C4_quota_fifo (initStore 2 24) "c" psC4 (by decide) (by decide) (by decide)
    (by decide) (by decide)


/-- C5 (amended): the save-path hot-cache insertion preserves the capacity
bound (a cache within capacity stays within capacity after save, the
over-capacity insertion evicting an entry holding the minimal
lastAccessedAt tick among all entries), and the concrete capacity-2
scenario put a, put b, get a, put c leaves exactly the keys a and c (b,
the least recently touched, was evicted).  The eviction is by minimal
access tick, not insertion order.  However the disk-promotion path of
load_session inserts without evicting, so the hot cache CAN exceed its
capacity after a load (see the counterexample). -/
theorem claim_C5_lru_eviction :
    (∀ (s : SessionStore) (id : String) (p : DocumentProcessor) (ip : Option String)
        (s' : SessionStore), saveSession s id p ip = some s' →
        s.sessionCache.length ≤ s.maxCacheSize →
        s'.sessionCache.length ≤ s.maxCacheSize) ∧
    (∀ (s : SessionStore) (id : String) (p : DocumentProcessor),
        s.maxCacheSize < (aupsert s.sessionCache id (p, s.clock)).length →
        ∃ j, j < (aupsert s.sessionCache id (p, s.clock)).length ∧
          (cachePut s id p).sessionCache =
            (aupsert s.sessionCache id (p, s.clock)).eraseIdx j ∧
          ∀ i, i < (aupsert s.sessionCache id (p, s.clock)).length →
            ((aupsert s.sessionCache id (p, s.clock)).map (fun e => e.2.2)).getD j 0 ≤
            ((aupsert s.sessionCache id (p, s.clock)).map (fun e => e.2.2)).getD i 0) ∧
    keysOf scenarioStore.sessionCache = ["a", "c"] := by
  refine ⟨?_, ?_, by decide⟩
  · intro s id p ip s' hsave hb
    obtain ⟨s1, hq, hs'⟩ := saveSession_decomp s id p ip s' hsave
    obtain ⟨_, hm, _, _, _, hlen, _⟩ := quotaRegister_spec s id ip s1 hq
    have hb1 : s1.sessionCache.length ≤ s1.maxCacheSize := by
      rw [hm]
      omega
    have hc := cachePut_length s1 id p hb1
    have hcache : s'.sessionCache = (cachePut s1 id p).sessionCache := by
      rw [hs']
      exact (diskWrite_frames _ _ _ _).1
    rw [hcache]
    rw [hm] at hc
    exact hc
  · intro s id p hov
    refine ⟨idxOfMin ((aupsert s.sessionCache id (p, s.clock)).map (fun e => e.2.2)),
      ?_, ?_, ?_⟩
    · have hpos : 0 < ((aupsert s.sessionCache id (p, s.clock)).map
          (fun e => e.2.2)).length := by
        rw [List.length_map]
        omega
      have := idxOfMin_lt _ hpos
      rw [List.length_map] at this
      exact this
    · rw [cachePut_cache, if_pos hov]
    · intro i hi
      exact getD_idxOfMin_le _ i (by rw [List.length_map]; exact hi)

/-- C5 counterexample: after three saves on the capacity-2 store and a
load of the evicted session, the hot cache holds 3 entries while its
capacity is 2, refuting the claim that the cache size never exceeds
capacity. -/
theorem claim_C5_cex :
    c5RunStore.sessionCache.length = 3 ∧ c5RunStore.maxCacheSize = 2 := by
  decide

/-- C5 witness: the save-path bound evaluated on the capacity-2 store, and
the min-tick eviction applied to the over-capacity insertion on the
capacity-1 store. -/
theorem claim_C5_witness :
    (((saveSession capTwoStore "a" procA none).getD capTwoStore).sessionCache.length ≤
      capTwoStore.maxCacheSize) ∧
    (∃ j, j < (aupsert wStoreC6.sessionCache "b" (procB, wStoreC6.clock)).length ∧
      (cachePut wStoreC6 "b" procB).sessionCache =
        (aupsert wStoreC6.sessionCache "b" (procB, wStoreC6.clock)).eraseIdx j ∧
      ∀ i, i < (aupsert wStoreC6.sessionCache "b" (procB, wStoreC6.clock)).length →
        ((aupsert wStoreC6.sessionCache "b" (procB, wStoreC6.clock)).map
          (fun e => e.2.2)).getD j 0 ≤
        ((aupsert wStoreC6.sessionCache "b" (procB, wStoreC6.clock)).map
          (fun e => e.2.2)).getD i 0) :=
  ⟨claim_C5_lru_eviction.1 capTwoStore "a" procA none
      ((saveSession capTwoStore "a" procA none).getD capTwoStore) (by rfl) (by decide),
   claim_C5_lru_eviction.2.1 wStoreC6 "b" procB (by decide)⟩


/-- C1 (amended): (1) a session whose durable metadata has expired (and
whose cache entry, if any, has expired too) is removed from the hot cache
and from both durable maps by one Reaper scan; (2) a load_session served
from the DURABLE tier (a hot-cache miss) immediately before a scan resets
the expiry eligibility: it refreshes the durable lastAccessedAt, and the
scan that follows removes the session from neither tier.  A cache-hit
load, by contrast, refreshes only the hot-cache tick and does not protect
the session (see the counterexample). -/
theorem claim_C1_reaper :
    (∀ (s : SessionStore) (id : String) (m : Meta),
        alookup s.metaFiles id = some m → m.session_id = id →
        isExpired s.sessionTimeout m.last_accessed s.clock = true →
        (∀ e ∈ s.sessionCache, e.1 = id →
          isExpired s.sessionTimeout e.2.2 s.clock = true) →
        absentEverywhere (cleanupOnce s) id) ∧
    (∀ (s : SessionStore) (id : String) (p : DocumentProcessor) (m : Meta),
        MetaWF s → 2 ≤ s.sessionTimeout →
        alookup s.sessionCache id = none →
        alookup s.sessionFiles id = some p → p.index.isSome = true →
        alookup s.metaFiles id = some m →
        (loadSession s id).1 = some p ∧
        alookup (cleanupOnce (loadSession s id).2).sessionCache id =
          some (p, s.clock) ∧
        alookup (cleanupOnce (loadSession s id).2).sessionFiles id = some p ∧
        alookup (cleanupOnce (loadSession s id).2).metaFiles id =
          some { m with last_accessed := s.clock + 1 }) := by
  constructor
  · intro s id m hm hsid hexp _
    rw [cleanupOnce_eq]
    apply foldl_reap_removes s.clock id m
    left
    refine ⟨?_, hsid, ?_, ?_⟩
    · show alookup s.metaFiles id = some m
      exact hm
    · show isExpired s.sessionTimeout m.last_accessed s.clock = true
      exact hexp
    · show id ∈ s.metaFiles.map (fun e => e.1)
      exact List.mem_map_of_mem (fun e => e.1) (alookup_mem _ _ _ hm)
  · intro s id p m hwf hT hcachemiss hdisk hind hmeta
    have hload := loadSession_disk s id p m hcachemiss hdisk hind hmeta
    have hfst : (loadSession s id).1 = some p := by rw [hload]
    have hsid : m.session_id = id := hwf (id, m) (alookup_mem _ _ _ hmeta)
    set m2 : Meta := { m with last_accessed := s.clock + 1 } with hm2def
    set s2 : SessionStore :=
      { s with sessionCache := aupsert s.sessionCache id (p, s.clock),
               metaFiles := aupsert s.metaFiles id m2,
               clock := s.clock + 2 } with hs2def
    have hsnd : (loadSession s id).2 = s2 := by rw [hload]
    have hwf2 : MetaWF s2 := by
      intro e he
      rcases mem_aupsert _ _ _ _ he with h1 | h2
      · rw [h1]
        exact hsid
      · exact hwf e h2
    have hc2 : alookup s2.sessionCache id = some (p, s.clock) :=
      alookup_aupsert_self _ _ _
    have hmeta2 : alookup s2.metaFiles id = some m2 := alookup_aupsert_self _ _ _
    have hcachelookup : alookup (phase1 s2).sessionCache id = some (p, s.clock) := by
      rw [phase1_cacheLookup s2 id ?_]
      · exact hc2
      · intro e he hk
        rcases mem_aupsert _ _ _ _ he with h1 | h2
        · rw [h1]
          show isExpired s.sessionTimeout s.clock (s.clock + 2) = false
          simp only [isExpired, decide_eq_false_iff_not]
          omega
        · exact absurd hk ((alookup_eq_none_iff _ _).mp hcachemiss e h2)
    have hnotexp : isExpired s2.sessionTimeout m2.last_accessed s2.clock = false := by
      show isExpired s.sessionTimeout (s.clock + 1) (s.clock + 2) = false
      simp only [isExpired, decide_eq_false_iff_not]
      omega
    have hwf2p : MetaWF (phase1 s2) := hwf2
    have hmeta2p : alookup (phase1 s2).metaFiles id = some m2 := hmeta2
    have hnotexp2 : isExpired (phase1 s2).sessionTimeout m2.last_accessed s2.clock =
        false := hnotexp
    obtain ⟨r1, r2, r3⟩ := foldl_reap_preserves s2.clock id m2
      ((phase1 s2).metaFiles.map (fun e => e.1)) (phase1 s2) hwf2p hmeta2p hnotexp2
    refine ⟨hfst, ?_, ?_, ?_⟩
    · rw [hsnd, cleanupOnce_eq, r1]
      exact hcachelookup
    · rw [hsnd, cleanupOnce_eq, r2]
      show alookup s.sessionFiles id = some p
      exact hdisk
    · rw [hsnd, cleanupOnce_eq]
      exact r3

/-- C1 counterexample: with a two-unit timeout, session a is saved, time
advances beyond the timeout, and a load_session succeeds (a cache hit)
immediately before the scan; the scan still removes a from both the hot
cache and the durable store, because the cache-hit load never refreshed
the durable lastAccessedAt.  This refutes the claim that any load
immediately before a scan prevents removal. -/
theorem claim_C1_cex :
    (loadSession c1exS2 "a").1 = some procA ∧
    2 ≤ c1exS2.sessionTimeout ∧
    absentEverywhere (cleanupOnce c1exS3) "a" := by
  decide

/-- C1 witness: part one applied to an expired record present in all
tiers, part two applied to a durably stored session loaded from disk just
before the scan. -/
theorem claim_C1_witness :
    absentEverywhere (cleanupOnce wStoreC1a) "a" ∧
    ((loadSession wStoreC1b "a").1 = some procA ∧
     alookup (cleanupOnce (loadSession wStoreC1b "a").2).sessionCache "a" =
       some (procA, wStoreC1b.clock) ∧
     alookup (cleanupOnce (loadSession wStoreC1b "a").2).sessionFiles "a" =
       some procA ∧
     alookup (cleanupOnce (loadSession wStoreC1b "a").2).metaFiles "a" =
       some { session_id := "a", created_at := 0,
              last_accessed := wStoreC1b.clock + 1, ip_address := none }) :=
  ⟨claim_C1_reaper.1 wStoreC1a "a"
      { session_id := "a", created_at := 0, last_accessed := 0, ip_address := none }
      (by decide) (by decide) (by decide) (by decide),
   claim_C1_reaper.2 wStoreC1b "a" procA
      { session_id := "a", created_at := 0, last_accessed := 0, ip_address := none }
      (by decide) (by decide) (by decide) (by decide) (by decide) (by decide)⟩

end FH
